import Mathlib

set_option maxHeartbeats 1000000

/-!
Verification development for a client-side URL shortener
(React + localStorage).  The core embedded here, translated from the
TypeScript sources, consists of:

* the shortcode generator (`src/utils/shortcodeGenerator.ts`),
* the record store (`src/utils/dataStore.ts`),
* input validation (`src/utils/validation.ts`),
* the batch submission flow (`handleSubmit` in `src/components/UrlForm.tsx`),
* the redirect resolver (`handleRedirect` in `src/components/RedirectPage.tsx`).

`Math.random()` draws are modelled by an oracle `rand : Nat → Nat`
consumed one character at a time through a running counter; `Date.now()`
is a parameter `now : Int`; `localStorage` holding the decoded record
collection is modelled as a `List ShortenedUrl` threaded through the
operations; `JSON.parse` failure is modelled by a partial decode
function returning `Option`.
-/

namespace Shortener

/-- ClickEvent record, from `src/types` (`timestamp`, `source`, `geo`). -/
structure ClickEvent where
  timestamp : Int
  source : String
  geo : String
deriving Repr, DecidableEq

/-- ShortenedUrl record, from `src/types`; `expiryDate : number | null`
becomes `Option Int`. -/
structure ShortenedUrl where
  id : String
  originalUrl : String
  shortCode : String
  creationDate : Int
  expiryDate : Option Int
  clicks : List ClickEvent
deriving Repr, DecidableEq

/-- UrlFormData record, from `src/types`. -/
structure UrlFormData where
  originalUrl : String
  validityPeriod : Int
  preferredShortcode : String
deriving Repr, DecidableEq

/-! ## Shortcode generator (`src/utils/shortcodeGenerator.ts`) -/

/-- The 62-character alphanumeric alphabet used by `generateShortcode`. -/
def shortcodeChars : List Char :=
  "ABCDEFGHIJKLMNOPQRSTUVWXYZabcdefghijklmnopqrstuvwxyz0123456789".data

/-- Source `generateShortcode(length)`: draws `len` characters
(`chars.charAt(Math.floor(Math.random() * chars.length))`).  The random
draws are the oracle values `rand c, rand (c+1), …` taken modulo the
alphabet size; `c` is the running draw counter. -/
def generateShortcode (rand : Nat → Nat) (c len : Nat) : String :=
  String.mk ((List.range len).map fun i =>
    shortcodeChars.getD (rand (c + i) % shortcodeChars.length) 'A')

/-- Embedding of the loop `while (existingCodes.includes(shortcode) && attempts < maxAttempts)`
loop of `generateUniqueShortcode`.  `left` counts the remaining allowed
iterations (`maxAttempts - attempts`, starting at 100) so that the
recursion is structural; `attempts` mirrors the source counter.  Returns
the final `shortcode`, the final `attempts`, and the draw counter. -/
def attemptLoop (rand : Nat → Nat) (existingCodes : List String) (len : Nat) :
    Nat → String → Nat → Nat → String × Nat × Nat
  | 0, shortcode, attempts, c => (shortcode, attempts, c)
  | left + 1, shortcode, attempts, c =>
    if existingCodes.contains shortcode then
      attemptLoop rand existingCodes len left
        (generateShortcode rand c len) (attempts + 1) (c + len)
    else
      (shortcode, attempts, c)

lemma generateShortcode_length (rand : Nat → Nat) (c len : Nat) :
    (generateShortcode rand c len).length = len := by
  simp [generateShortcode]

/-- Largest length of any code in the exclusion set (0 when empty);
used only as the termination measure for `generateUniqueShortcode`. -/
def maxCodeLen (existingCodes : List String) : Nat :=
  (existingCodes.map String.length).foldr Nat.max 0

lemma length_le_maxCodeLen {existingCodes : List String} {s : String}
    (h : s ∈ existingCodes) : s.length ≤ maxCodeLen existingCodes := by
  induction existingCodes with
  | nil => cases h
  | cons a l ih =>
    rcases List.mem_cons.mp h with rfl | h
    · exact Nat.le_max_left _ _
    · exact Nat.le_trans (ih h) (Nat.le_max_right _ _)

lemma mem_of_contains {l : List String} {s : String}
    (h : l.contains s = true) : s ∈ l := by
  simpa using h

lemma contains_eq_false_of_not_mem {l : List String} {s : String}
    (h : s ∉ l) : l.contains s = false := by
  simpa using h

/-- If the attempt loop ever incremented `attempts`, then some member of
the exclusion set has exactly the generated length (the colliding
candidate itself). -/
lemma exists_mem_len_of_attempts_ne (rand : Nat → Nat)
    (existingCodes : List String) (len : Nat) :
    ∀ left s attempts c, s.length = len →
      (attemptLoop rand existingCodes len left s attempts c).2.1 ≠ attempts →
      ∃ t ∈ existingCodes, t.length = len := by
  intro left s attempts c hs hne
  cases left with
  | zero => simp [attemptLoop] at hne
  | succ left =>
    by_cases hm : s ∈ existingCodes
    · exact ⟨s, hm, hs⟩
    · have hc : existingCodes.contains s = false := contains_eq_false_of_not_mem hm
      simp only [attemptLoop, hc, Bool.false_eq_true, if_false] at hne
      simp at hne

/-- Source `generateUniqueShortcode(existingCodes, length)`: run the bounded
retry loop starting from a fresh draw; if `attempts >= maxAttempts`
afterwards, recurse with `length + 1` (the returned shortcode is
discarded); otherwise return the loop's shortcode.  Termination: an
escalation requires a collision, i.e. a member of the exclusion set of
the current length, so the length stays bounded by `maxCodeLen`. -/
def generateUniqueShortcode (rand : Nat → Nat) (existingCodes : List String)
    (len c : Nat) : String × Nat :=
  if h : 100 ≤ (attemptLoop rand existingCodes len 100
      (generateShortcode rand c len) 0 (c + len)).2.1 then
    generateUniqueShortcode rand existingCodes (len + 1)
      (attemptLoop rand existingCodes len 100
        (generateShortcode rand c len) 0 (c + len)).2.2
  else
    ((attemptLoop rand existingCodes len 100
        (generateShortcode rand c len) 0 (c + len)).1,
     (attemptLoop rand existingCodes len 100
        (generateShortcode rand c len) 0 (c + len)).2.2)
termination_by maxCodeLen existingCodes + 1 - len
decreasing_by
  obtain ⟨t, ht, htl⟩ := exists_mem_len_of_attempts_ne rand existingCodes len
    100 (generateShortcode rand c len) 0 (c + len)
    (generateShortcode_length rand c len) (by omega)
  have := length_le_maxCodeLen ht
  omega

lemma generateUniqueShortcode_unfold (rand : Nat → Nat)
    (existingCodes : List String) (len c : Nat) :
    generateUniqueShortcode rand existingCodes len c =
      if 100 ≤ (attemptLoop rand existingCodes len 100
          (generateShortcode rand c len) 0 (c + len)).2.1 then
        generateUniqueShortcode rand existingCodes (len + 1)
          (attemptLoop rand existingCodes len 100
            (generateShortcode rand c len) 0 (c + len)).2.2
      else
        ((attemptLoop rand existingCodes len 100
            (generateShortcode rand c len) 0 (c + len)).1,
         (attemptLoop rand existingCodes len 100
            (generateShortcode rand c len) 0 (c + len)).2.2) := by
  rw [generateUniqueShortcode]
  exact dite_eq_ite ..

/-- One iteration of the loop: with budget remaining and a colliding
candidate, redraw and continue. -/
lemma attemptLoop_step (rand : Nat → Nat) (existingCodes : List String)
    (len left : Nat) (s : String) (attempts c : Nat)
    (hs : existingCodes.contains s = true) :
    attemptLoop rand existingCodes len (left + 1) s attempts c =
      attemptLoop rand existingCodes len left
        (generateShortcode rand c len) (attempts + 1) (c + len) := by
  show (if existingCodes.contains s = true then _ else _) = _
  rw [if_pos hs]

/-- The loop exits immediately (returning its arguments) when the
current candidate is not excluded. -/
lemma attemptLoop_exit (rand : Nat → Nat) (existingCodes : List String)
    (len : Nat) : ∀ left s attempts c,
    existingCodes.contains s = false →
    attemptLoop rand existingCodes len left s attempts c = (s, attempts, c) := by
  intro left s attempts c hs
  cases left with
  | zero => rfl
  | succ left =>
    show (if existingCodes.contains s = true then _ else _) = _
    rw [if_neg (by simpa using hs)]

/-- If the entering candidate and the next `left` draws all collide,
the loop runs `left + 1` iterations, ending on the draw made at counter
`c + left * len` (which is never membership-tested) with
`attempts` increased by `left + 1`. -/
lemma attemptLoop_all_collide (rand : Nat → Nat) (existingCodes : List String)
    (len : Nat) : ∀ left s attempts c,
    existingCodes.contains s = true →
    (∀ k, k < left →
      existingCodes.contains (generateShortcode rand (c + k * len) len) = true) →
    attemptLoop rand existingCodes len (left + 1) s attempts c =
      (generateShortcode rand (c + left * len) len,
       attempts + (left + 1), c + (left + 1) * len) := by
  intro left
  induction left with
  | zero =>
    intro s attempts c hs _
    rw [attemptLoop_step rand existingCodes len 0 s attempts c hs]
    simp [attemptLoop]
  | succ left ih =>
    intro s attempts c hs hall
    rw [attemptLoop_step rand existingCodes len (left + 1) s attempts c hs]
    rw [ih (generateShortcode rand c len) (attempts + 1) (c + len)
      (by simpa using hall 0 (by omega))
      (fun k hk => by
        have := hall (k + 1) (by omega)
        rwa [show c + (k + 1) * len = c + len + k * len by ring] at this)]
    have e1 : c + len + left * len = c + (left + 1) * len := by ring
    have e2 : attempts + 1 + (left + 1) = attempts + (left + 1 + 1) := by ring
    have e3 : c + len + (left + 1) * len = c + (left + 1 + 1) * len := by ring
    rw [e1, e2, e3]

/-- If the candidates drawn before index `j` (together with the entering
candidate) all collide and the draw at index `j` is fresh, the loop
returns that fresh draw with `attempts` increased by `j + 1`. -/
lemma attemptLoop_first_fresh (rand : Nat → Nat) (existingCodes : List String)
    (len : Nat) : ∀ j left s attempts c, j + 1 ≤ left →
    existingCodes.contains s = true →
    (∀ i, i < j →
      existingCodes.contains (generateShortcode rand (c + i * len) len) = true) →
    existingCodes.contains (generateShortcode rand (c + j * len) len) = false →
    attemptLoop rand existingCodes len left s attempts c =
      (generateShortcode rand (c + j * len) len,
       attempts + (j + 1), c + (j + 1) * len) := by
  intro j
  induction j with
  | zero =>
    intro left s attempts c hleft hs _ hfresh
    obtain ⟨L, rfl⟩ : ∃ L, left = L + 1 := ⟨left - 1, by omega⟩
    rw [attemptLoop_step rand existingCodes len L s attempts c hs]
    rw [attemptLoop_exit rand existingCodes len L _ _ _
      (by simpa using hfresh)]
    simp
  | succ j ih =>
    intro left s attempts c hleft hs hall hfresh
    obtain ⟨L, rfl⟩ : ∃ L, left = L + 1 := ⟨left - 1, by omega⟩
    rw [attemptLoop_step rand existingCodes len L s attempts c hs]
    rw [ih L (generateShortcode rand c len) (attempts + 1) (c + len)
      (by omega)
      (by simpa using hall 0 (by omega))
      (fun i hi => by
        have := hall (i + 1) (by omega)
        rwa [show c + (i + 1) * len = c + len + i * len by ring] at this)
      (by rwa [show c + (j + 1) * len = c + len + j * len by ring] at hfresh)]
    have e1 : c + len + j * len = c + (j + 1) * len := by ring
    have e2 : attempts + 1 + (j + 1) = attempts + (j + 1 + 1) := by ring
    have e3 : c + len + (j + 1) * len = c + (j + 1 + 1) * len := by ring
    rw [e1, e2, e3]

/-- If the loop returned without exhausting its iteration budget, the
returned candidate is not in the exclusion set. -/
lemma attemptLoop_fresh_of_attempts_lt (rand : Nat → Nat)
    (existingCodes : List String) (len : Nat) :
    ∀ left s attempts c,
      (attemptLoop rand existingCodes len left s attempts c).2.1 <
        attempts + left →
      existingCodes.contains
        (attemptLoop rand existingCodes len left s attempts c).1 = false := by
  intro left
  induction left with
  | zero =>
    intro s attempts c h
    simp [attemptLoop] at h
  | succ left ih =>
    intro s attempts c h
    by_cases hs : existingCodes.contains s
    · rw [attemptLoop_step rand existingCodes len left s attempts c hs] at h ⊢
      exact ih _ _ _ (by omega)
    · have hs' : existingCodes.contains s = false := by simpa using hs
      rw [attemptLoop_exit rand existingCodes len _ _ _ _ hs']
      exact hs'

/-- The code returned by `generateUniqueShortcode` is never in the
exclusion set (fuel-indexed version; `fuel` dominates the number of
possible escalations). -/
lemma generateUniqueShortcode_fresh (rand : Nat → Nat)
    (existingCodes : List String) :
    ∀ fuel len c, maxCodeLen existingCodes + 1 ≤ len + fuel →
      existingCodes.contains
        (generateUniqueShortcode rand existingCodes len c).1 = false := by
  intro fuel
  induction fuel with
  | zero =>
    intro len c hlen
    rw [generateUniqueShortcode_unfold]
    split
    · next h =>
      exfalso
      obtain ⟨t, ht, htl⟩ := exists_mem_len_of_attempts_ne rand existingCodes
        len 100 (generateShortcode rand c len) 0 (c + len)
        (generateShortcode_length rand c len) (by omega)
      have := length_le_maxCodeLen ht
      omega
    · next h =>
      exact attemptLoop_fresh_of_attempts_lt rand existingCodes len 100 _ 0 _
        (by omega)
  | succ fuel ih =>
    intro len c hlen
    rw [generateUniqueShortcode_unfold]
    split
    · next h => exact ih (len + 1) _ (by omega)
    · next h =>
      exact attemptLoop_fresh_of_attempts_lt rand existingCodes len 100 _ 0 _
        (by omega)

/-- The code returned by `generateUniqueShortcode` is never a member of
the exclusion set. -/
lemma generateUniqueShortcode_not_mem (rand : Nat → Nat)
    (existingCodes : List String) (len c : Nat) :
    (generateUniqueShortcode rand existingCodes len c).1 ∉ existingCodes := by
  have h := generateUniqueShortcode_fresh rand existingCodes
    (maxCodeLen existingCodes + 1) len c (by omega)
  simpa using h

/-! ## Record store (`src/utils/dataStore.ts`)

The persisted collection under the `shortened_urls` key is modelled as
the decoded `List ShortenedUrl`; every store operation below is the
body of the corresponding `DataStore` method with
`getAllUrls`/`localStorage.setItem` replaced by the list itself.
`getAllUrls` with its corruption handling is modelled separately for
the fail-open claim. -/

/-- Source `DataStore.getAllUrls` at the persistence boundary: `stored` is
`localStorage.getItem(STORAGE_KEY)` (`none` when absent) and
`parseJson` models `JSON.parse`, returning `none` when parsing throws.
A falsy (empty) string yields `[]` without parsing; a parse failure is
caught and yields `[]`. -/
def getAllUrls (parseJson : String → Option (List ShortenedUrl))
    (stored : Option String) : List ShortenedUrl :=
  match stored with
  | none => []
  | some s =>
    if s = "" then []
    else
      match parseJson s with
      | some urls => urls
      | none => []

/-- Source `DataStore.getUrlByShortCode`: first record whose `shortCode`
matches (`urls.find(u => u.shortCode === shortCode)`). -/
def getUrlByShortCode (urls : List ShortenedUrl) (shortCode : String) :
    Option ShortenedUrl :=
  urls.find? fun u => u.shortCode == shortCode

/-- Source `DataStore.addUrl`: `urls.push(url)` then persist. -/
def addUrl (urls : List ShortenedUrl) (url : ShortenedUrl) :
    List ShortenedUrl :=
  urls ++ [url]

/-- Source `DataStore.updateUrl`: replace the record at
`urls.findIndex(u => u.id === url.id)`; silent no-op when absent. -/
def updateUrl (urls : List ShortenedUrl) (url : ShortenedUrl) :
    List ShortenedUrl :=
  match urls.findIdx? (fun u => u.id == url.id) with
  | some index => urls.set index url
  | none => urls

/-- Source `DataStore.isShortCodeUnique`: no current record carries the code. -/
def isShortCodeUnique (urls : List ShortenedUrl) (shortCode : String) :
    Bool :=
  !(urls.any fun u => u.shortCode == shortCode)

/-- Source `DataStore.addClick`: fetch by code, append the click event to the
record's `clicks`, persist via `updateUrl`; no-op when the code is
unbound. -/
def addClick (urls : List ShortenedUrl) (shortCode : String)
    (clickEvent : ClickEvent) : List ShortenedUrl :=
  match getUrlByShortCode urls shortCode with
  | some url => updateUrl urls { url with clicks := url.clicks ++ [clickEvent] }
  | none => urls

/-! ## Validation (`src/utils/validation.ts`)

The URL pattern is
`^(https?:\/\/)?([\da-z\.-]+)\.([a-z\.]{2,6})([\/\w \.-]*)*\/?$`.
Since the regex has no backreferences, `test` succeeds exactly when the
string is in the pattern's language: an optional protocol, a non-empty
host over `[0-9a-z.-]`, a literal dot, a TLD of 2–6 characters over
`[a-z.]`, and a tail over `[/A-Za-z0-9_ .-]` (the nested star
`([\/\w \.-]*)*` and the optional trailing slash generate the same
tail language because `/` is in the class).  Membership is decided by
searching over the separating-dot position and the TLD length. -/

/-- Character class `[\da-z\.-]` (host part). -/
def hostChar (ch : Char) : Bool :=
  ch.isDigit || (('a' ≤ ch) && (ch ≤ 'z')) || ch == '.' || ch == '-'

/-- Character class `[a-z\.]` (TLD part). -/
def tldChar (ch : Char) : Bool :=
  (('a' ≤ ch) && (ch ≤ 'z')) || ch == '.'

/-- Character class `[\/\w \.-]` (path/tail part); `\w` is
`[A-Za-z0-9_]`. -/
def tailChar (ch : Char) : Bool :=
  ch == '/' || ch.isAlphanum || ch == '_' || ch == ' ' || ch == '.' || ch == '-'

/-- Membership of the protocol-free body in
`([\da-z\.-]+)\.([a-z\.]{2,6})([\/\w \.-]*)*\/?`: some split
`host ++ "." ++ tld ++ tail` with the class and length constraints. -/
def matchUrlBody (cs : List Char) : Bool :=
  (List.range cs.length).any fun i =>
    decide (1 ≤ i) && (cs.getD i '?' == '.') && (cs.take i).all hostChar &&
    ((List.range 7).any fun j =>
      decide (2 ≤ j) && decide (j ≤ (cs.drop (i + 1)).length) &&
      ((cs.drop (i + 1)).take j).all tldChar &&
      ((cs.drop (i + 1)).drop j).all tailChar)

/-- JavaScript `String.prototype.startsWith`, over the character list. -/
def jsStartsWith (s p : String) : Bool :=
  p.data.isPrefixOf s.data

/-- JavaScript `String.prototype.trim` (whitespace at both ends), over
the character list. -/
def jsTrim (s : String) : String :=
  String.mk (((s.data.dropWhile Char.isWhitespace).reverse.dropWhile
    Char.isWhitespace).reverse)

/-- Source `urlPattern.test(url)`: optional `http://` / `https://` protocol,
then the body. -/
def urlPatternTest (s : String) : Bool :=
  matchUrlBody s.data ||
  (jsStartsWith s "http://" && matchUrlBody (s.data.drop 7)) ||
  (jsStartsWith s "https://" && matchUrlBody (s.data.drop 8))

/-- Source `validateUrl`: empty/whitespace-only is "URL is required"; a
pattern failure is "Please enter a valid URL". Returns
`(isValid, message)`. -/
def validateUrl (url : String) : Bool × String :=
  if jsTrim url = "" then (false, "URL is required")
  else if !urlPatternTest url then (false, "Please enter a valid URL")
  else (true, "")

/-- Source `validateValidityPeriod`: positive and at most 525600 minutes. -/
def validateValidityPeriod (period : Int) : Bool × String :=
  if period ≤ 0 then (false, "Validity period must be positive")
  else if period > 525600 then (false, "Validity period cannot exceed 1 year")
  else (true, "")

/-- Source `validateShortcode`: empty (after trim) is valid; otherwise must be
alphanumeric (`^[a-zA-Z0-9]+$`) with length 4–10. -/
def validateShortcode (shortcode : String) : Bool × String :=
  if jsTrim shortcode = "" then (true, "")
  else if !(shortcode.data.all Char.isAlphanum && shortcode.data ≠ []) then
    (false, "Shortcode must contain only letters and numbers")
  else if shortcode.length < 4 || shortcode.length > 10 then
    (false, "Shortcode must be 4-10 characters long")
  else (true, "")

/-! ## Batch submission (`handleSubmit` in `src/components/UrlForm.tsx`) -/

/-- Source `validateForm`: true iff no error was recorded for the item — the
three validators accept, and a non-empty preferred shortcode is unique
against the current store. -/
def validateForm (urls : List ShortenedUrl) (form : UrlFormData) : Bool :=
  (validateUrl form.originalUrl).1 &&
  (validateValidityPeriod form.validityPeriod).1 &&
  (validateShortcode form.preferredShortcode).1 &&
  (form.preferredShortcode == "" || isShortCodeUnique urls form.preferredShortcode)

/-- Record construction inside the `handleSubmit` loop: the original
URL is prefixed with `https://` unless it already starts with the
literal `"http"`; `expiryDate` is always set to
`now + validityPeriod * 60000`. `ids i` models the
`Date.now().toString() + Math.random().toString(36).substr(2, 9)`
identifier of the `i`-th item. -/
def mkRecord (ids : Nat → String) (i : Nat) (now : Int) (form : UrlFormData)
    (shortCode : String) : ShortenedUrl :=
  { id := ids i
  , originalUrl :=
      if jsStartsWith form.originalUrl "http" then form.originalUrl
      else "https://" ++ form.originalUrl
  , shortCode := shortCode
  , creationDate := now
  , expiryDate := some (now + form.validityPeriod * 60000)
  , clicks := [] }

/-- Embedding of the `for` loop of `handleSubmit`.  State: remaining forms, item
index `i`, random-draw counter `c`, the store, the `processedUrls`
accumulator, and the `hasErrors` flag.  An invalid item sets
`hasErrors` and is skipped (`continue`); a valid item derives its code
(preferred, or `generateUniqueShortcode` over the exclusion set
recomputed from the current store) and is committed immediately via
`addUrl`. -/
def submitLoop (rand : Nat → Nat) (ids : Nat → String) (now : Int) :
    List UrlFormData → Nat → Nat → List ShortenedUrl → List ShortenedUrl →
    Bool → List ShortenedUrl × List ShortenedUrl × Bool
  | [], _, _, urls, processedUrls, hasErrors => (urls, processedUrls, hasErrors)
  | form :: rest, i, c, urls, processedUrls, hasErrors =>
    if validateForm urls form then
      let existingCodes := urls.map fun u => u.shortCode
      let shortCode :=
        if form.preferredShortcode ≠ "" then form.preferredShortcode
        else (generateUniqueShortcode rand existingCodes 6 c).1
      let c2 :=
        if form.preferredShortcode ≠ "" then c
        else (generateUniqueShortcode rand existingCodes 6 c).2
      let url := mkRecord ids i now form shortCode
      submitLoop rand ids now rest (i + 1) c2 (addUrl urls url)
        (processedUrls ++ [url]) hasErrors
    else
      submitLoop rand ids now rest (i + 1) c urls processedUrls true

/-- Source `handleSubmit`: run the loop from a fresh accumulator; returns the
final store, the `processedUrls` list (displayed as the success result
only when the returned `hasErrors` flag is false), and `hasErrors`. -/
def handleSubmit (rand : Nat → Nat) (ids : Nat → String) (now : Int)
    (forms : List UrlFormData) (urls : List ShortenedUrl) :
    List ShortenedUrl × List ShortenedUrl × Bool :=
  submitLoop rand ids now forms 0 0 urls [] false

/-! ## Redirect resolution (`src/components/RedirectPage.tsx`) -/

/-- Terminal states of the redirect page (the transient `loading` state
is left implicit: `handleRedirect` always reaches a terminal one). -/
inductive RedirectStatus where
  | redirecting
  | expired
  | notFound
deriving Repr, DecidableEq

/-- Embedding of the guard `url.expiryDate && Date.now() > url.expiryDate`.
JavaScript truthiness makes both `null` and the number `0` falsy, so a
zero expiry timestamp never triggers the expired branch. -/
def expiryGuard (now : Int) (expiryDate : Option Int) : Bool :=
  match expiryDate with
  | none => false
  | some e => (e != 0) && decide (now > e)

/-- Source `handleRedirect`: absent or empty shortcode → not found; unbound
code → not found; expired (per `expiryGuard`) → expired, store
untouched; otherwise append a click event and redirect.  Returns the
terminal status and the resulting store. -/
def handleRedirect (now : Int) (click : ClickEvent)
    (urls : List ShortenedUrl) (shortcode : Option String) :
    RedirectStatus × List ShortenedUrl :=
  match shortcode with
  | none => (.notFound, urls)
  | some code =>
    if code = "" then (.notFound, urls)
    else
      match getUrlByShortCode urls code with
      | none => (.notFound, urls)
      | some url =>
        if expiryGuard now url.expiryDate then (.expired, urls)
        else (.redirecting, addClick urls code click)

/-- Source `recordClick` iterated: the `k`-th call (0-based) appends the
synthesized event `ev k`. -/
def recordClicks (ev : Nat → ClickEvent) (shortCode : String) :
    Nat → List ShortenedUrl → List ShortenedUrl
  | 0, urls => urls
  | k + 1, urls => addClick (recordClicks ev shortCode k urls) shortCode (ev k)

/-! ## Structural lemmas about the submission loop -/

lemma submitLoop_cons_valid (rand : Nat → Nat) (ids : Nat → String) (now : Int)
    (form : UrlFormData) (rest : List UrlFormData) (i c : Nat)
    (urls processedUrls : List ShortenedUrl) (hasErrors : Bool)
    (hv : validateForm urls form = true) :
    submitLoop rand ids now (form :: rest) i c urls processedUrls hasErrors =
      submitLoop rand ids now rest (i + 1)
        (if form.preferredShortcode ≠ "" then c
         else (generateUniqueShortcode rand (urls.map fun u => u.shortCode) 6 c).2)
        (addUrl urls (mkRecord ids i now form
          (if form.preferredShortcode ≠ "" then form.preferredShortcode
           else (generateUniqueShortcode rand (urls.map fun u => u.shortCode) 6 c).1)))
        (processedUrls ++ [mkRecord ids i now form
          (if form.preferredShortcode ≠ "" then form.preferredShortcode
           else (generateUniqueShortcode rand (urls.map fun u => u.shortCode) 6 c).1)])
        hasErrors := by
  show (if validateForm urls form = true then _ else _) = _
  rw [if_pos hv]

lemma submitLoop_cons_invalid (rand : Nat → Nat) (ids : Nat → String)
    (now : Int) (form : UrlFormData) (rest : List UrlFormData) (i c : Nat)
    (urls processedUrls : List ShortenedUrl) (hasErrors : Bool)
    (hv : validateForm urls form = false) :
    submitLoop rand ids now (form :: rest) i c urls processedUrls hasErrors =
      submitLoop rand ids now rest (i + 1) c urls processedUrls true := by
  show (if validateForm urls form = true then _ else _) = _
  rw [if_neg (by simp [hv])]

/-- The loop only appends: whatever it adds to the store is exactly what
it appends to `processedUrls`. -/
lemma submitLoop_news (rand : Nat → Nat) (ids : Nat → String) (now : Int) :
    ∀ (forms : List UrlFormData) (i c : Nat)
      (urls processedUrls : List ShortenedUrl) (hasErrors : Bool),
      ∃ news : List ShortenedUrl,
        (submitLoop rand ids now forms i c urls processedUrls hasErrors).1 =
          urls ++ news ∧
        (submitLoop rand ids now forms i c urls processedUrls hasErrors).2.1 =
          processedUrls ++ news := by
  intro forms
  induction forms with
  | nil =>
    intro i c urls p he
    exact ⟨[], by simp [submitLoop], by simp [submitLoop]⟩
  | cons form rest ih =>
    intro i c urls p he
    by_cases hv : validateForm urls form
    · rw [submitLoop_cons_valid rand ids now form rest i c urls p he hv]
      obtain ⟨news, h1, h2⟩ := ih _ _ _ _ _
      refine ⟨mkRecord ids i now form
        (if form.preferredShortcode ≠ "" then form.preferredShortcode
         else (generateUniqueShortcode rand
           (urls.map fun u => u.shortCode) 6 c).1) :: news, ?_, ?_⟩
      · rw [h1]; simp [addUrl]
      · rw [h2]; simp
    · rw [submitLoop_cons_invalid rand ids now form rest i c urls p he
        (by simpa using hv)]
      exact ih _ _ _ _ _

/-- Every record the loop ever places in `processedUrls` (beyond the
initial accumulator) is `mkRecord` applied to one of the submitted
forms. -/
lemma submitLoop_processed_shape (rand : Nat → Nat) (ids : Nat → String)
    (now : Int) :
    ∀ (forms : List UrlFormData) (i c : Nat)
      (urls processedUrls : List ShortenedUrl) (hasErrors : Bool)
      (u : ShortenedUrl),
      u ∈ (submitLoop rand ids now forms i c urls processedUrls hasErrors).2.1 →
      u ∈ processedUrls ∨
        ∃ f ∈ forms, ∃ j shortCode, u = mkRecord ids j now f shortCode := by
  intro forms
  induction forms with
  | nil =>
    intro i c urls p he u hu
    exact Or.inl hu
  | cons form rest ih =>
    intro i c urls p he u hu
    by_cases hv : validateForm urls form
    · rw [submitLoop_cons_valid rand ids now form rest i c urls p he hv] at hu
      rcases ih _ _ _ _ _ u hu with hmem | ⟨f, hf, j, code, rfl⟩
      · rcases List.mem_append.mp hmem with hmem | hmem
        · exact Or.inl hmem
        · refine Or.inr ⟨form, List.mem_cons_self .., i, _,
            (List.mem_singleton.mp hmem)⟩
      · exact Or.inr ⟨f, List.mem_cons_of_mem _ hf, j, code, rfl⟩
    · rw [submitLoop_cons_invalid rand ids now form rest i c urls p he
        (by simpa using hv)] at hu
      rcases ih _ _ _ _ _ u hu with hmem | ⟨f, hf, j, code, rfl⟩
      · exact Or.inl hmem
      · exact Or.inr ⟨f, List.mem_cons_of_mem _ hf, j, code, rfl⟩

/-! ## Concrete inputs used by counterexamples and witnesses -/

/-- Random oracle that always draws character index 0 (the letter A). -/
def rand0 : Nat → Nat := fun _ => 0

/-- Random oracle drawing character index 1 (the letter B) on draw 600 —
the first character of the 100th retry at length 6 — and 0 elsewhere. -/
def rand600 : Nat → Nat := fun n => if n = 600 then 1 else 0

/-- Constant id oracle. -/
def idsX : Nat → String := fun _ => "x"

/-- A form failing URL validation (empty URL). -/
def badForm : UrlFormData := ⟨"", 30, ""⟩

/-- A valid form with a preferred shortcode. -/
def goodForm : UrlFormData := ⟨"example.com", 30, "abcd"⟩

/-- A valid form whose URL starts with the literal `http` but carries no
protocol. -/
def httpForm : UrlFormData := ⟨"httpfoo.com", 30, "abcd"⟩

/-- A valid form without a preferred shortcode. -/
def formN : UrlFormData := ⟨"example.com", 30, ""⟩

/-- A concrete click event. -/
def clickD : ClickEvent := ⟨0, "Direct", "Asia"⟩

/-! ## Claims C1, C3, C5, C10 -/

/-- C1 counterexample: submitting the batch `[badForm, goodForm]` — whose
first item fails validation (`hasErrors = true` in the result) — still
commits the valid second item: the final store holds one record, not
zero.  This refutes "if at least one item fails validation then no
record from that batch is committed". -/
theorem c1_counterexample :
    (handleSubmit rand0 idsX 0 [badForm, goodForm] []).2.2 = true ∧
    (handleSubmit rand0 idsX 0 [badForm, goodForm] []).1.length = 1 := by
  exact ⟨by decide, by decide⟩

/-- C1 amended: batch submission is per-item, not all-or-nothing — every
item that passes validation is committed to the store immediately, even
when other items in the batch fail; the final store is exactly the
initial store extended by the processed (valid) records, and only the
success display is withheld on `hasErrors`. -/
theorem c1_amended (rand : Nat → Nat) (ids : Nat → String) (now : Int)
    (forms : List UrlFormData) (urls : List ShortenedUrl) :
    (handleSubmit rand ids now forms urls).1 =
      urls ++ (handleSubmit rand ids now forms urls).2.1 := by
  obtain ⟨news, h1, h2⟩ := submitLoop_news rand ids now forms 0 0 urls [] false
  simp only [handleSubmit]
  rw [h1, h2]
  simp

/-- C3 counterexample: `"httpfoo.com"` carries no protocol (it starts
with neither `http://` nor `https://`), passes URL validation, and is
committed unmodified — not as `https://httpfoo.com` — because the
normalization tests only the literal four characters `http`.  This
refutes "every submitted original URL that has no protocol is stored
with the `https://` prefix". -/
theorem c3_counterexample :
    jsStartsWith "httpfoo.com" "http://" = false ∧
    jsStartsWith "httpfoo.com" "https://" = false ∧
    (handleSubmit rand0 idsX 0 [httpForm] []).2.2 = false ∧
    (handleSubmit rand0 idsX 0 [httpForm] []).1.map (fun u => u.originalUrl) =
      ["httpfoo.com"] ∧
    "httpfoo.com" ≠ "https://" ++ "httpfoo.com" := by
  exact ⟨by decide, by decide, by decide, by decide, by decide⟩

/-- C3 amended: the stored `originalUrl` of every record created by the
submission flow is the submitted URL itself when that URL starts with
the literal string `http` (whether or not an actual protocol is
present), and `https://` prepended to it otherwise. -/
theorem c3_amended (rand : Nat → Nat) (ids : Nat → String) (now : Int)
    (forms : List UrlFormData) (urls : List ShortenedUrl) (u : ShortenedUrl)
    (hu : u ∈ (handleSubmit rand ids now forms urls).2.1) :
    ∃ f ∈ forms, u.originalUrl =
      if jsStartsWith f.originalUrl "http" then f.originalUrl
      else "https://" ++ f.originalUrl := by
  rcases submitLoop_processed_shape rand ids now forms 0 0 urls [] false u hu
    with hmem | ⟨f, hf, j, code, rfl⟩
  · cases hmem
  · exact ⟨f, hf, rfl⟩

/-- C3 amended witness at the concrete `httpForm` batch. -/
theorem c3_amended_witness :
    ∃ f ∈ [httpForm],
      (ShortenedUrl.mk "x" "httpfoo.com" "abcd" 0 (some 1800000) []).originalUrl =
        if jsStartsWith f.originalUrl "http" then f.originalUrl
        else "https://" ++ f.originalUrl :=
  c3_amended rand0 idsX 0 [httpForm] []
    (ShortenedUrl.mk "x" "httpfoo.com" "abcd" 0 (some 1800000) []) (by decide)

/-- C10: every record produced by the submission flow has a non-null
expiry equal to its creation time plus `validityPeriod * 60000`
milliseconds for the corresponding form; the `expiryDate = null`
("never expires") sentinel admitted by the record type is never
constructed by this path. -/
theorem c10_expiry_always_set (rand : Nat → Nat) (ids : Nat → String)
    (now : Int) (forms : List UrlFormData) (urls : List ShortenedUrl)
    (u : ShortenedUrl)
    (hu : u ∈ (handleSubmit rand ids now forms urls).2.1) :
    ∃ f ∈ forms,
      u.expiryDate = some (u.creationDate + f.validityPeriod * 60000) := by
  rcases submitLoop_processed_shape rand ids now forms 0 0 urls [] false u hu
    with hmem | ⟨f, hf, j, code, rfl⟩
  · cases hmem
  · exact ⟨f, hf, rfl⟩

/-- C10 witness at a concrete single-item batch. -/
theorem c10_expiry_always_set_witness :
    ∃ f ∈ [goodForm],
      (ShortenedUrl.mk "x" "https://example.com" "abcd" 0 (some 1800000) []).expiryDate =
        some ((ShortenedUrl.mk "x" "https://example.com" "abcd" 0
          (some 1800000) []).creationDate + f.validityPeriod * 60000) :=
  c10_expiry_always_set rand0 idsX 0 [goodForm] []
    (ShortenedUrl.mk "x" "https://example.com" "abcd" 0 (some 1800000) [])
    (by decide)

lemma nodup_append_singleton {α : Type} (l : List α) (a : α)
    (h : l.Nodup) (ha : a ∉ l) : (l ++ [a]).Nodup := by
  rw [List.nodup_append]
  refine ⟨h, List.nodup_singleton _, ?_⟩
  intro x hx hxa
  rw [List.mem_singleton.mp hxa] at hx
  exact ha hx

/-- The loop preserves distinctness of the stored shortcodes when no
item carries a preferred code: each generated code is drawn against the
exclusion set recomputed from the current store. -/
lemma submitLoop_nodup (rand : Nat → Nat) (ids : Nat → String) (now : Int) :
    ∀ (forms : List UrlFormData) (i c : Nat)
      (urls processedUrls : List ShortenedUrl) (hasErrors : Bool),
      (∀ f ∈ forms, f.preferredShortcode = "") →
      (urls.map fun u => u.shortCode).Nodup →
      ((submitLoop rand ids now forms i c urls processedUrls
          hasErrors).1.map fun u => u.shortCode).Nodup := by
  intro forms
  induction forms with
  | nil =>
    intro i c urls p he _ hnd
    simpa [submitLoop] using hnd
  | cons form rest ih =>
    intro i c urls p he hpref hnd
    by_cases hv : validateForm urls form
    · rw [submitLoop_cons_valid rand ids now form rest i c urls p he hv]
      have hp0 : form.preferredShortcode = "" :=
        hpref form (List.mem_cons_self ..)
      refine ih _ _ _ _ _ (fun f hf => hpref f (List.mem_cons_of_mem _ hf)) ?_
      have hcode : (if form.preferredShortcode ≠ "" then form.preferredShortcode
          else (generateUniqueShortcode rand
            (urls.map fun u => u.shortCode) 6 c).1) =
          (generateUniqueShortcode rand (urls.map fun u => u.shortCode) 6 c).1 :=
        if_neg (by simp [hp0])
      rw [hcode]
      have hfresh := generateUniqueShortcode_not_mem rand
        (urls.map fun u => u.shortCode) 6 c
      simp only [addUrl, List.map_append, List.map_cons, List.map_nil]
      exact nodup_append_singleton _ _ hnd
        (by simpa only [mkRecord] using hfresh)
    · rw [submitLoop_cons_invalid rand ids now form rest i c urls p he
        (by simpa using hv)]
      exact ih _ _ _ _ _ (fun f hf => hpref f (List.mem_cons_of_mem _ hf)) hnd

/-- C5: starting from a store with pairwise-distinct shortcodes, a batch
submission in which no item supplies a preferred code leaves the store's
shortcodes pairwise-distinct, and the store grows by exactly the number
of successful creations — so N successful creations contribute N
distinct `shortCode` values. -/
theorem c5_uniqueness (rand : Nat → Nat) (ids : Nat → String) (now : Int)
    (forms : List UrlFormData) (urls : List ShortenedUrl)
    (hpref : ∀ f ∈ forms, f.preferredShortcode = "")
    (hnd : (urls.map fun u => u.shortCode).Nodup) :
    ((handleSubmit rand ids now forms urls).1.map fun u => u.shortCode).Nodup ∧
    (handleSubmit rand ids now forms urls).1.length =
      urls.length + (handleSubmit rand ids now forms urls).2.1.length := by
  constructor
  · exact submitLoop_nodup rand ids now forms 0 0 urls [] false hpref hnd
  · obtain ⟨news, h1, h2⟩ :=
      submitLoop_news rand ids now forms 0 0 urls [] false
    simp only [handleSubmit]
    rw [h1, h2]
    simp

/-- C5 witness: two creations without preferred codes from the empty
store. -/
theorem c5_uniqueness_witness :
    ((handleSubmit rand0 idsX 0 [formN, formN] []).1.map
        fun u => u.shortCode).Nodup ∧
    (handleSubmit rand0 idsX 0 [formN, formN] []).1.length =
      ([] : List ShortenedUrl).length +
        (handleSubmit rand0 idsX 0 [formN, formN] []).2.1.length :=
  c5_uniqueness rand0 idsX 0 [formN, formN] [] (by decide) (by decide)

/-! ## Claims C2 and C6: the generator's retry and escalation policy -/

/-- If all 100 membership-tested candidates at the current length (the
initial draw and retries 1–99) collide, `generateUniqueShortcode`
escalates to `length + 1` — discarding the 100th retry's draw, which is
made but never tested. -/
lemma generateUniqueShortcode_escalates (rand : Nat → Nat)
    (existingCodes : List String) (len c : Nat)
    (hall : ∀ k, k < 100 →
      existingCodes.contains (generateShortcode rand (c + k * len) len) = true) :
    generateUniqueShortcode rand existingCodes len c =
      generateUniqueShortcode rand existingCodes (len + 1)
        (c + len + 100 * len) := by
  have h0 : existingCodes.contains (generateShortcode rand c len) = true := by
    simpa using hall 0 (by omega)
  have hloop := attemptLoop_all_collide rand existingCodes len 99
    (generateShortcode rand c len) 0 (c + len) h0
    (fun k hk => by
      have := hall (k + 1) (by omega)
      rwa [show c + (k + 1) * len = c + len + k * len by ring] at this)
  rw [generateUniqueShortcode_unfold]
  rw [show (100 : Nat) = 99 + 1 from rfl, hloop]
  norm_num

/-- If the candidate draws at indices `0 ≤ j < k` (draw 0 being the
initial call, draws 1..99 the tested retries) all collide while draw `k`
(with `k ≤ 99`) is fresh, `generateUniqueShortcode` returns draw `k`,
having consumed `k + 1` draws. -/
lemma generateUniqueShortcode_returns_first_fresh (rand : Nat → Nat)
    (existingCodes : List String) (len c k : Nat) (hk : k < 100)
    (hprev : ∀ j, j < k →
      existingCodes.contains (generateShortcode rand (c + j * len) len) = true)
    (hfresh :
      existingCodes.contains (generateShortcode rand (c + k * len) len) = false) :
    generateUniqueShortcode rand existingCodes len c =
      (generateShortcode rand (c + k * len) len, c + (k + 1) * len) := by
  rw [generateUniqueShortcode_unfold]
  cases k with
  | zero =>
    have h0 : existingCodes.contains (generateShortcode rand c len) = false := by
      simpa using hfresh
    rw [attemptLoop_exit rand existingCodes len 100 _ _ _ h0]
    rw [if_neg (by norm_num)]
    show (generateShortcode rand c len, c + len) =
      (generateShortcode rand (c + 0 * len) len, c + (0 + 1) * len)
    rw [show c + 0 * len = c by ring, show c + (0 + 1) * len = c + len by ring]
  | succ j =>
    have h0 : existingCodes.contains (generateShortcode rand c len) = true := by
      simpa using hprev 0 (by omega)
    have hloop := attemptLoop_first_fresh rand existingCodes len j 100
      (generateShortcode rand c len) 0 (c + len) (by omega) h0
      (fun i hi => by
        have := hprev (i + 1) (by omega)
        rwa [show c + (i + 1) * len = c + len + i * len by ring] at this)
      (by rwa [show c + (j + 1) * len = c + len + j * len by ring] at hfresh)
    rw [hloop]
    rw [if_neg (show ¬(100 ≤ ((generateShortcode rand (c + len + j * len) len,
      0 + (j + 1), c + len + (j + 1) * len) : String × Nat × Nat).2.1) by
        simp only [Prod.snd, Prod.fst]
        omega)]
    show (generateShortcode rand (c + len + j * len) len,
        c + len + (j + 1) * len) =
      (generateShortcode rand (c + (j + 1) * len) len, c + (j + 1 + 1) * len)
    rw [show c + len + j * len = c + (j + 1) * len by ring,
      show c + len + (j + 1) * len = c + (j + 1 + 1) * len by ring]

/-- C2 counterexample: with the exclusion set `["AAAAAA"]` and an oracle
whose first 100 draws at length 6 all produce `AAAAAA` while the 100th
retry produces the fresh candidate `BAAAAA`, the generator nevertheless
escalates and returns the 7-character `AAAAAAA`: the non-colliding
candidate drawn on the 100th retry is discarded without being tested,
refuting "a non-colliding candidate found on the 100th retry is
returned". -/
theorem c2_counterexample :
    generateShortcode rand600 600 6 = "BAAAAA" ∧
    (["AAAAAA"] : List String).contains "BAAAAA" = false ∧
    (generateUniqueShortcode rand600 ["AAAAAA"] 6 0).1 = "AAAAAAA" ∧
    ("AAAAAAA" : String) ≠ "BAAAAA" := by
  refine ⟨by decide, by decide, ?_, by decide⟩
  have h1 : attemptLoop rand600 ["AAAAAA"] 6 100
      (generateShortcode rand600 0 6) 0 (0 + 6) = ("BAAAAA", 100, 606) := by
    decide
  have h2 : attemptLoop rand600 ["AAAAAA"] 7 100
      (generateShortcode rand600 606 7) 0 (606 + 7) = ("AAAAAAA", 0, 613) := by
    decide
  rw [generateUniqueShortcode_unfold, h1]
  norm_num
  rw [generateUniqueShortcode_unfold, h2]
  norm_num

/-- C2 amended: `generateUniqueShortcode` returns the first
non-colliding candidate among the initial draw and the first 99
retries; it escalates to `length + 1` exactly when those 100 tested
candidates all collide — the candidate drawn on the 100th retry is
never membership-tested and is discarded on escalation. -/
theorem c2_amended (rand : Nat → Nat) (existingCodes : List String)
    (len c : Nat) :
    ((∀ k, k < 100 →
        existingCodes.contains (generateShortcode rand (c + k * len) len) = true) →
      generateUniqueShortcode rand existingCodes len c =
        generateUniqueShortcode rand existingCodes (len + 1)
          (c + len + 100 * len)) ∧
    (∀ k, k < 100 →
      (∀ j, j < k →
        existingCodes.contains (generateShortcode rand (c + j * len) len) = true) →
      existingCodes.contains (generateShortcode rand (c + k * len) len) = false →
      generateUniqueShortcode rand existingCodes len c =
        (generateShortcode rand (c + k * len) len, c + (k + 1) * len)) :=
  ⟨generateUniqueShortcode_escalates rand existingCodes len c,
   fun k hk hprev hfresh => generateUniqueShortcode_returns_first_fresh
     rand existingCodes len c k hk hprev hfresh⟩

/-- C2 amended witness: with an empty exclusion set the initial draw is
fresh and returned at once. -/
theorem c2_amended_witness :
    generateUniqueShortcode rand0 ([] : List String) 6 0 = ("AAAAAA", 6) := by
  have h := (c2_amended rand0 ([] : List String) 6 0).2 0 (by omega)
    (fun j hj => absurd hj (by omega)) (by decide)
  simpa using h

/-- C6: when every candidate the generator can draw at length 6 is
already excluded (an exclusion set holding every 6-character code) and
all excluded codes have length 6, `generateUniqueShortcode` terminates
by escalating once and returns a 7-character code not in the set. -/
theorem c6_escalation (rand : Nat → Nat) (existingCodes : List String)
    (c : Nat)
    (hall : ∀ c', existingCodes.contains (generateShortcode rand c' 6) = true)
    (hlen : ∀ s ∈ existingCodes, s.length = 6) :
    (generateUniqueShortcode rand existingCodes 6 c).1.length = 7 ∧
    (generateUniqueShortcode rand existingCodes 6 c).1 ∉ existingCodes := by
  have hesc := generateUniqueShortcode_escalates rand existingCodes 6 c
    (fun k _ => hall (c + k * 6))
  have hnot : generateShortcode rand ((c + 6 + 100 * 6) + 0 * 7) 7 ∉
      existingCodes := by
    intro hmem
    have h7 := generateShortcode_length rand ((c + 6 + 100 * 6) + 0 * 7) 7
    rw [hlen _ hmem] at h7
    omega
  have hret := generateUniqueShortcode_returns_first_fresh rand existingCodes
    7 (c + 6 + 100 * 6) 0 (by omega)
    (fun j hj => absurd hj (by omega))
    (contains_eq_false_of_not_mem hnot)
  rw [hesc, hret]
  refine ⟨generateShortcode_length .., ?_⟩
  simpa using hnot

/-- C6 witness: the constant oracle only ever draws `AAAAAA` at length
6, so `["AAAAAA"]` excludes every possible draw; the generator returns
a fresh 7-character code. -/
theorem c6_escalation_witness :
    (generateUniqueShortcode rand0 ["AAAAAA"] 6 0).1.length = 7 ∧
    (generateUniqueShortcode rand0 ["AAAAAA"] 6 0).1 ∉
      (["AAAAAA"] : List String) :=
  c6_escalation rand0 ["AAAAAA"] 0 (fun _ => rfl) (by decide)

/-! ## Claim C4: the expiry boundary -/

/-- A stored record whose expiry timestamp is `0`. -/
def recZero : ShortenedUrl := ⟨"x", "https://x.com", "abcd", -1000, some 0, []⟩

/-- C4 counterexample: `recZero` has the non-null expiry `some 0` and
the current time `1` strictly exceeds `0`, yet resolution redirects
instead of expiring — JavaScript truthiness makes the numeric expiry
`0` falsy in `url.expiryDate && Date.now() > url.expiryDate`.  This
refutes "Expired if and only if the current time strictly exceeds
expiryDate" for records with non-null expiry. -/
theorem c4_counterexample :
    recZero.expiryDate = some 0 ∧ (1 : Int) > 0 ∧
    (handleRedirect 1 clickD [recZero] (some "abcd")).1 =
      RedirectStatus.redirecting := by
  exact ⟨rfl, by decide, by decide⟩

/-- C4 amended: for a looked-up record with non-null `expiryDate = e`,
resolution yields `Expired` iff `e` is nonzero and the current time
strictly exceeds `e`; in particular equality at the boundary is NOT
expired, and the zero timestamp never expires (falsy in the guard). -/
theorem c4_amended (now : Int) (click : ClickEvent)
    (urls : List ShortenedUrl) (code : String) (url : ShortenedUrl) (e : Int)
    (hcode : code ≠ "")
    (hfind : getUrlByShortCode urls code = some url)
    (hexp : url.expiryDate = some e) :
    ((handleRedirect now click urls (some code)).1 = RedirectStatus.expired ↔
      (e ≠ 0 ∧ now > e)) := by
  show ((if code = "" then ((RedirectStatus.notFound, urls) :
      RedirectStatus × List ShortenedUrl)
    else
      match getUrlByShortCode urls code with
      | none => (RedirectStatus.notFound, urls)
      | some url =>
        if expiryGuard now url.expiryDate then (RedirectStatus.expired, urls)
        else (RedirectStatus.redirecting, addClick urls code click)).1 =
      RedirectStatus.expired ↔ _)
  rw [if_neg hcode, hfind]
  simp only [expiryGuard, hexp]
  by_cases h1 : e = 0
  · simp [h1]
  · by_cases h2 : now > e
    · simp [h1, h2]
    · simp [h1, h2]

/-- C4 amended witness: a record expired 5 milliseconds before `now`. -/
theorem c4_amended_witness :
    (handleRedirect 10 clickD
      [ShortenedUrl.mk "x" "https://x.com" "abcd" 0 (some 5) []]
      (some "abcd")).1 = RedirectStatus.expired :=
  (c4_amended 10 clickD [ShortenedUrl.mk "x" "https://x.com" "abcd" 0 (some 5) []]
    "abcd" (ShortenedUrl.mk "x" "https://x.com" "abcd" 0 (some 5) []) 5
    (by decide) (by decide) rfl).mpr (by decide)

/-! ## Claim C7: not-found and expired resolutions leave the store
unchanged -/

/-- C7: whenever resolution terminates in `NotFound` or `Expired`, the
returned store is exactly the input store — no click is recorded and no
record is mutated; the click recorder runs only on the redirecting
path. -/
theorem c7_frame (now : Int) (click : ClickEvent) (urls : List ShortenedUrl)
    (shortcode : Option String)
    (h : (handleRedirect now click urls shortcode).1 = RedirectStatus.notFound ∨
      (handleRedirect now click urls shortcode).1 = RedirectStatus.expired) :
    (handleRedirect now click urls shortcode).2 = urls := by
  cases shortcode with
  | none => rfl
  | some code =>
    by_cases hc : code = ""
    · simp [handleRedirect, hc]
    · simp only [handleRedirect, if_neg hc] at h ⊢
      cases hfind : getUrlByShortCode urls code with
      | none => simp [hfind]
      | some url =>
        simp only [hfind] at h ⊢
        by_cases hg : expiryGuard now url.expiryDate
        · simp [hg]
        · simp [hg] at h

/-- C7 witness: resolving an unbound code leaves the (empty) store
untouched. -/
theorem c7_frame_witness :
    (handleRedirect 0 clickD [] (some "doesnotexist")).2 = [] :=
  c7_frame 0 clickD [] (some "doesnotexist") (Or.inl (by decide))

/-! ## Claim C8: listAll fails open -/

/-- C8: `getAllUrls` is total — it returns a list for every persisted
state — and returns the empty list when the storage entry is absent,
empty, or fails to parse; when it parses, the decoded list is returned
unchanged. -/
theorem c8_fails_open (parseJson : String → Option (List ShortenedUrl)) :
    getAllUrls parseJson none = [] ∧
    getAllUrls parseJson (some "") = [] ∧
    (∀ s, parseJson s = none → getAllUrls parseJson (some s) = []) ∧
    (∀ s urls, s ≠ "" → parseJson s = some urls →
      getAllUrls parseJson (some s) = urls) := by
  refine ⟨rfl, rfl, ?_, ?_⟩
  · intro s hs
    by_cases h : s = "" <;> simp [getAllUrls, h, hs]
  · intro s urls hs hp
    simp [getAllUrls, hs, hp]

/-- A decoder that always fails, modelling `JSON.parse` throwing on a
corrupted persisted value. -/
def parseNone : String → Option (List ShortenedUrl) := fun _ => none

/-- C8 witness: an unparsable persisted value yields the empty list. -/
theorem c8_fails_open_witness :
    getAllUrls parseNone (some "not json") = [] :=
  (c8_fails_open parseNone).2.2.1 "not json" rfl

/-! ## Claim C9: click recording is append-only and preserving -/

lemma updateUrl_cons_ne (u : ShortenedUrl) (rest : List ShortenedUrl)
    (url : ShortenedUrl) (h : (u.id == url.id) = false) :
    updateUrl (u :: rest) url = u :: updateUrl rest url := by
  unfold updateUrl
  rw [List.findIdx?_cons, h]
  cases hfi : rest.findIdx? (fun v => v.id == url.id) with
  | none => simp [hfi]
  | some j => simp [hfi]

/-- Effect of a single `addClick` on a store with pairwise-distinct ids
binding `shortCode` to `url`: the looked-up record gains the click at
the end of its list and the stored id sequence is unchanged. -/
lemma addClick_spec (shortCode : String) (click : ClickEvent) :
    ∀ (urls : List ShortenedUrl) (url : ShortenedUrl),
      ((urls.map fun u => u.id).Nodup) →
      getUrlByShortCode urls shortCode = some url →
      getUrlByShortCode (addClick urls shortCode click) shortCode =
        some { url with clicks := url.clicks ++ [click] } ∧
      ((addClick urls shortCode click).map fun u => u.id) =
        urls.map fun u => u.id := by
  intro urls
  induction urls with
  | nil =>
    intro url _ hfind
    simp [getUrlByShortCode] at hfind
  | cons u rest ih =>
    intro url hnd hfind
    by_cases hsc : (u.shortCode == shortCode) = true
    · have hu : u = url := by
        have h2 := hfind
        simp only [getUrlByShortCode, List.find?, hsc] at h2
        exact Option.some.inj h2
      subst hu
      have haddc : addClick (u :: rest) shortCode click =
          { u with clicks := u.clicks ++ [click] } :: rest := by
        simp only [addClick, hfind, updateUrl, List.findIdx?_cons]
        simp
      rw [haddc]
      refine ⟨?_, by simp⟩
      simp only [getUrlByShortCode, List.find?]
      simp [hsc]
    · have hsc' : (u.shortCode == shortCode) = false := by
        simpa using hsc
      have hfind' : getUrlByShortCode rest shortCode = some url := by
        have h2 := hfind
        simp only [getUrlByShortCode, List.find?, hsc'] at h2
        exact h2
      have hmem : url ∈ rest := List.mem_of_find?_eq_some hfind'
      have hnd2 : (u.id :: rest.map fun v => v.id).Nodup := by
        simpa using hnd
      have hnd' : ((rest.map fun v => v.id).Nodup) :=
        (List.nodup_cons.mp hnd2).2
      have hid : (u.id == url.id) = false := by
        have hne : u.id ∉ rest.map fun v => v.id := (List.nodup_cons.mp hnd2).1
        have hne2 : u.id ≠ url.id := by
          intro he
          exact hne (he ▸ List.mem_map_of_mem _ hmem)
        simpa using hne2
      have haddc : addClick (u :: rest) shortCode click =
          u :: addClick rest shortCode click := by
        simp only [addClick, hfind, hfind']
        exact updateUrl_cons_ne u rest _ hid
      rw [haddc]
      obtain ⟨ih1, ih2⟩ := ih url hnd' hfind'
      constructor
      · simp only [getUrlByShortCode, List.find?, hsc']
        exact ih1
      · simp [ih2]

/-- Iterated effect of `recordClick` (the resolver's click recorder):
after `K` calls the bound record has gained exactly the `K` events in
arrival order, all other fields and all other records' ids
unchanged. -/
lemma recordClicks_spec (ev : Nat → ClickEvent) (shortCode : String)
    (urls : List ShortenedUrl) (url : ShortenedUrl)
    (hnd : (urls.map fun u => u.id).Nodup)
    (hfind : getUrlByShortCode urls shortCode = some url) :
    ∀ K, getUrlByShortCode (recordClicks ev shortCode K urls) shortCode =
        some { url with clicks := url.clicks ++ (List.range K).map ev } ∧
      ((recordClicks ev shortCode K urls).map fun u => u.id) =
        urls.map fun u => u.id := by
  intro K
  induction K with
  | zero =>
    constructor
    · simpa [recordClicks] using hfind
    · rfl
  | succ K ih =>
    obtain ⟨ih1, ih2⟩ := ih
    have hstep := addClick_spec shortCode (ev K)
      (recordClicks ev shortCode K urls) _ (by rw [ih2]; exact hnd) ih1
    constructor
    · rw [show recordClicks ev shortCode (K + 1) urls =
        addClick (recordClicks ev shortCode K urls) shortCode (ev K) from rfl]
      rw [hstep.1]
      simp [List.range_succ]
    · rw [show recordClicks ev shortCode (K + 1) urls =
        addClick (recordClicks ev shortCode K urls) shortCode (ev K) from rfl]
      rw [hstep.2, ih2]

/-- C9: in a store with pairwise-distinct ids, after `recordClick` runs
`K` times on a code bound to `url`, looking the code up finds the same
record with its `clicks` extended by exactly the `K` synthesized events
in arrival order — prior entries, their order, and all other fields
(`id`, `originalUrl`, `shortCode`, `creationDate`, `expiryDate`) are
unchanged. -/
theorem c9_click_append (ev : Nat → ClickEvent) (shortCode : String)
    (urls : List ShortenedUrl) (url : ShortenedUrl) (K : Nat)
    (hnd : (urls.map fun u => u.id).Nodup)
    (hfind : getUrlByShortCode urls shortCode = some url) :
    getUrlByShortCode (recordClicks ev shortCode K urls) shortCode =
      some { url with clicks := url.clicks ++ (List.range K).map ev } :=
  (recordClicks_spec ev shortCode urls url hnd hfind K).1

/-- A stored record used by the C9 witness. -/
def urlW : ShortenedUrl := ⟨"id1", "https://x.com", "abcd", 0, some 10, []⟩

/-- Deterministic click-event oracle for the C9 witness. -/
def evD : Nat → ClickEvent := fun k => ⟨k, "Direct", "Asia"⟩

/-- C9 witness: two recorded clicks on a singleton store. -/
theorem c9_click_append_witness :
    getUrlByShortCode (recordClicks evD "abcd" 2 [urlW]) "abcd" =
      some { urlW with clicks := urlW.clicks ++ (List.range 2).map evD } :=
  c9_click_append evD "abcd" [urlW] urlW 2 (by decide) (by decide)

end Shortener
